import Mathlib

/-!
# VortexMedia: shallow embedding and verification

A shallow embedding of the VortexMedia front-end sources:
* `src/unnamed/part_000` (the shared types module),
* `src/components/Downloader.tsx` (the batch-queue state machine),
* `src/services/notifications.ts` (which also carries the AI service
  wrappers `analyzeLink` and `generateVideo`),
* `src/unnamed/part_001` (the `Generator` component and its error handler).

Pure functions become Lean functions; the component state becomes an explicit
state record (`DlState`) and a step relation (`Step`).  Sources of
nondeterminism in the code — `crypto.randomUUID()`, `Math.random()`, `Date.now()`
and the external AI responses — are modelled as parameters of the corresponding
step, guarded by the guarantees of the source of randomness (UUID freshness,
`Math.random() ∈ [0, 1)` bounds).  JavaScript floating point numbers that feed
the simulated progress are modelled as rationals; the stored
`Math.min(100, Math.round(progress))` values are integers in both worlds.
-/

namespace VortexMedia

/-! ## Character-level helpers for the JS string operations -/

/-- The JavaScript `\s` character class restricted to the characters this
    program can meet (regular whitespace, tabs, newlines, vertical space). -/
def jsSpace (c : Char) : Bool :=
  c = ' ' || c = '\t' || c = '\n' || c = '\r' || c = '\x0b' || c = '\x0c' ||
  c = ' '

/-- `startsWithSeq p l` holds when the character list `l` begins with `p`
    (the anchored part of the URL regex, and `String.prototype.startsWith`). -/
def startsWithSeq : List Char → List Char → Bool
  | [], _ => true
  | _ :: _, [] => false
  | p :: ps, c :: cs => p == c && startsWithSeq ps cs

/-- `containsSub pat l`: does `pat` occur as a contiguous run inside `l`?
    This is `String.prototype.includes` on the underlying characters. -/
def containsSub (pat : List Char) : List Char → Bool
  | [] => pat.isEmpty
  | c :: rest => startsWithSeq pat (c :: rest) || containsSub pat rest

/-- `s.includes(pat)` from JavaScript. -/
def strContains (s pat : String) : Bool :=
  containsSub pat.toList s.toList

/-! ## Data model (`src/unnamed/part_000`) -/

/-- The `'video' | 'audio'` union used for the global download type and the
    per-item `type` field. -/
inductive MediaType
  | video
  | audio
deriving DecidableEq, Repr

/-- `AnalysisResult.contentType : 'video' | 'audio' | 'image' | 'unknown'`. -/
inductive ContentType
  | video
  | audio
  | image
  | unknown
deriving DecidableEq, Repr

/-- The per-item status union of `BatchItem` in `Downloader.tsx`:
    `'idle' | 'analyzing' | 'ready' | 'downloading' | 'completed' | 'error'`. -/
inductive Status
  | idle
  | analyzing
  | ready
  | downloading
  | completed
  | error
deriving DecidableEq, Repr

/-- `AnalysisResult` from the types module. -/
structure AnalysisResult where
  platform : String
  isValid : Bool
  summary : String
  contentType : ContentType
  thumbnailUrl : Option String := none
  isPlaylist : Option Bool := none
deriving DecidableEq, Repr

/-- `HistoryItem` from the types module. -/
structure HistoryItem where
  id : String
  url : String
  platform : String
  timestamp : Int
  summary : String
deriving DecidableEq, Repr

/-- `BatchItem` from `Downloader.tsx`.  `progress` only ever receives the
    integers `0`, `Math.min(100, Math.round(p))` and `100`, so it is an `Int`. -/
structure BatchItem where
  id : String
  url : String
  status : Status
  progress : Int
  speed : String
  phase : String
  timeLeft : String
  result : Option AnalysisResult
  errorMsg : Option String := none
  suggestion : Option String := none
  helpLink : Option String := none
  type : MediaType
deriving DecidableEq, Repr

/-! ## `analyzeLink` (the gemini service carried inside
     `src/services/notifications.ts`) -/

/-- Outcome of the external `ai.models.generateContent` call: either the
    promise rejects, or it resolves with an optional `response.text`. -/
inductive ApiOutcome
  | failure
  | success (text : Option String)
deriving DecidableEq, Repr

/-- The literal object returned by the `catch` block of `analyzeLink`. -/
def fallbackResult : AnalysisResult :=
  { platform := "Desconocida"
    isValid := false
    summary := "No pudimos identificar este enlace."
    contentType := ContentType.unknown
    isPlaylist := some false }

/-- `analyzeLink` from the gemini service.  The external call outcome and the
    (unvalidated) `JSON.parse` cast are parameters: `parse t = none` models a
    `JSON.parse` exception.  An absent or empty `response.text` is falsy, so it
    raises `"No response text"`, which the same `catch` turns into
    `fallbackResult`. -/
def analyzeLink (outcome : ApiOutcome) (parse : String → Option AnalysisResult) :
    AnalysisResult :=
  match outcome with
  | ApiOutcome.failure => fallbackResult
  | ApiOutcome.success none => fallbackResult
  | ApiOutcome.success (some t) =>
    if t.isEmpty then fallbackResult
    else
      match parse t with
      | some r => r
      | none => fallbackResult

/-! ## The `Generator` error handler (`src/unnamed/part_001`) -/

/-- The seven user-facing Spanish messages of `handleGenerate`'s catch block. -/
def errGeneric : String := "Hubo un error generando el video. Intenta de nuevo."

def errNotFound : String :=
  "La llave API seleccionada no es válida o el proyecto no tiene acceso al modelo Veo. Por favor selecciona una nueva."

def errInvalidArgument : String :=
  "La descripción proporcionada no es válida. Por favor, sé más específico o evita contenido que viole las políticas de seguridad."

def errPermissionDenied : String :=
  "Permiso denegado. Verifica que tu API Key tenga habilitada la facturación en Google Cloud Console."

def errQuota : String :=
  "Has excedido el límite de cuota de la API. Por favor intenta más tarde."

def errUnavailable : String :=
  "El servicio de video está temporalmente saturado. Inténtalo de nuevo en unos minutos."

def errSafety : String :=
  "La solicitud fue bloqueada por los filtros de seguridad. Intenta modificar tu descripción."

/-- The fields of a thrown `err: any` that `handleGenerate` inspects:
    `err.message`, `err.status` and `err.response?.status`. -/
structure JsError where
  message : Option String
  status : Option Int
  responseStatus : Option Int
deriving DecidableEq, Repr

/-- JavaScript `a || b` on the numeric fields: `0`, like `undefined`, is falsy. -/
def jsOrInt : Option Int → Option Int → Option Int
  | some v, b => if v = 0 then b else some v
  | none, b => b

/-- The error-to-message mapping of `handleGenerate`'s catch block
    (`src/unnamed/part_001`, lines 61-85).  `none` is a falsy `err`, for which
    the outer `if (err)` keeps the generic message. -/
def generateErrorMessage (err : Option JsError) : String :=
  match err with
  | none => errGeneric
  | some e =>
    let msg := e.message.getD ""
    let status := jsOrInt e.status e.responseStatus
    if strContains msg "Requested entity was not found" || status = some 404 then
      errNotFound
    else if status = some 400 || strContains msg "INVALID_ARGUMENT" then
      errInvalidArgument
    else if status = some 403 || strContains msg "PERMISSION_DENIED" then
      errPermissionDenied
    else if status = some 429 || strContains msg "RESOURCE_EXHAUSTED" then
      errQuota
    else if status = some 503 || strContains msg "UNAVAILABLE" then
      errUnavailable
    else if strContains msg "SAFETY" then
      errSafety
    else
      errGeneric

/-! ## Downloader pure operations (`src/components/Downloader.tsx`) -/

/-- `addToHistory` (lines 69-86).  `Date.now()` and the generated entry id are
    parameters.  The early `return` on `!resultData.isValid` leaves the list
    unchanged; otherwise entries with the same url are filtered out and the new
    entry is prepended, keeping the first five. -/
def addToHistory (resultData : AnalysisResult) (link : String) (newId : String)
    (now : Int) (history : List HistoryItem) : List HistoryItem :=
  if !resultData.isValid then history
  else
    let newItem : HistoryItem :=
      { id := newId, url := link, platform := resultData.platform,
        timestamp := now, summary := resultData.summary }
    let filtered := history.filter (fun item => decide (item.url ≠ link))
    (newItem :: filtered).take 5

/-- One regex match attempt at the head of `cs` for `https?:\/\/[^\s]+`:
    the literal scheme, then a greedy nonempty run of non-whitespace. -/
def tryMatchUrl (cs : List Char) : Option (List Char × List Char) :=
  if startsWithSeq "https://".toList cs then
    let rest := cs.drop 8
    let body := rest.takeWhile (fun c => !jsSpace c)
    if body.isEmpty then none
    else some ("https://".toList ++ body, rest.dropWhile (fun c => !jsSpace c))
  else if startsWithSeq "http://".toList cs then
    let rest := cs.drop 7
    let body := rest.takeWhile (fun c => !jsSpace c)
    if body.isEmpty then none
    else some ("http://".toList ++ body, rest.dropWhile (fun c => !jsSpace c))
  else none

/-- The global scan of `text.match(/(https?:\/\/[^\s]+)/g)`: at every position
    try to match; on a match, emit it and continue after it.  The fuel is the
    length of the input; every step consumes at least one character (a match
    consumes the whole matched run), so the fuel never runs out. -/
def extractUrlsAux : Nat → List Char → List String
  | 0, _ => []
  | _ + 1, [] => []
  | fuel + 1, c :: rest =>
    match tryMatchUrl (c :: rest) with
    | some (url, tail) => String.mk url :: extractUrlsAux fuel tail
    | none => extractUrlsAux fuel rest

/-- `extractUrls` (lines 93-96): `text.match(urlRegex) || []`. -/
def extractUrls (cs : List Char) : List String :=
  extractUrlsAux cs.length cs

/-- `Array.from(new Set(rawUrls))`: insertion-ordered deduplication keeping the
    first occurrence of each url; `seen` is the set built so far. -/
def dedupFirstAux (seen : List String) : List String → List String
  | [] => []
  | x :: xs =>
    if x ∈ seen then dedupFirstAux seen xs
    else x :: dedupFirstAux (x :: seen) xs

def dedupFirst (l : List String) : List String :=
  dedupFirstAux [] l

/-- The literal batch item built for each unique url in `handleAnalyzeBatch`
    (lines 107-117), with the `crypto.randomUUID()` value as a parameter. -/
def mkAnalyzingItem (id url : String) (dt : MediaType) : BatchItem :=
  { id := id, url := url, status := Status.analyzing, progress := 0,
    speed := "0 MB/s", phase := "Iniciando...", timeLeft := "--",
    result := none, type := dt }

/-- `uniqueUrls.map(url => ({id: crypto.randomUUID(), ...}))`: the `k`-th
    created item receives the `(n+k)`-th value of the UUID stream `ids`. -/
def mkBatchItems (ids : Nat → String) (dt : MediaType) :
    Nat → List String → List BatchItem
  | _, [] => []
  | n, url :: rest => mkAnalyzingItem (ids n) url dt :: mkBatchItems ids dt (n + 1) rest

/-- The queue update performed by `handleAnalyzeBatch` (lines 98-124): guard on
    all-whitespace input (`!inputText.trim()`), extract and deduplicate the
    urls, build the analyzing items, drop those whose url is already queued and
    prepend the rest.  The per-item analysis completions are separate steps
    (`applyAnalysis`). -/
def handleAnalyzeBatch (inputText : String) (dt : MediaType) (ids : Nat → String)
    (queue : List BatchItem) : List BatchItem :=
  if inputText.toList.all jsSpace then queue
  else if (dedupFirst (extractUrls inputText.toList)).isEmpty then queue
  else
    (mkBatchItems ids dt 0 (dedupFirst (extractUrls inputText.toList))).filter
      (fun i => decide (i.url ∉ queue.map BatchItem.url)) ++ queue

/-- `updateItem` (lines 195-197): `prev.map(item => item.id === id ?
    {...item, ...updates} : item)`, with each call site's concrete `updates`
    object supplied as the field rewriter `f`. -/
def updateItem (id : String) (f : BatchItem → BatchItem)
    (queue : List BatchItem) : List BatchItem :=
  queue.map fun item => if item.id = id then f item else item

/-- The continuation of `handleAnalyzeBatch` for one item once its
    `analyzeLink` promise settles (lines 129-151): `some data` is a resolved
    analysis, `none` is a rejected promise (the `catch` branch). -/
def applyAnalysis (id : String) (outcome : Option AnalysisResult)
    (queue : List BatchItem) : List BatchItem :=
  match outcome with
  | some data =>
    if data.isValid then
      updateItem id (fun it => { it with status := Status.ready, result := some data }) queue
    else
      updateItem id
        (fun it => { it with status := Status.error,
                             errorMsg := some "Plataforma no soportada",
                             result := some data }) queue
  | none =>
    updateItem id
      (fun it => { it with status := Status.error,
                           errorMsg := some "Error de conexión" }) queue

/-- One simulated sub-item of an expanded playlist (lines 163-183). -/
def playlistChild (id : String) (parent : BatchItem) (platform : String)
    (dt : MediaType) (i : Nat) : BatchItem :=
  { id := id
    url := parent.url ++ "&index=" ++ toString i
    status := Status.ready
    progress := 0
    speed := "0 MB/s"
    phase := "Listo"
    timeLeft := "--"
    type := dt
    result := some
      { platform := platform
        isValid := true
        contentType := match dt with
          | MediaType.video => ContentType.video
          | MediaType.audio => ContentType.audio
        summary := (match dt with
          | MediaType.audio => "Track"
          | MediaType.video => "Episodio") ++ " #" ++ toString i ++ " de la lista"
        thumbnailUrl := parent.result.bind AnalysisResult.thumbnailUrl
        isPlaylist := some false } }

/-- The `for (let i = 1; i <= mockCount; i++)` loop body of `expandPlaylist`. -/
def mkPlaylistItems (ids : Nat → String) (parent : BatchItem) (platform : String)
    (dt : MediaType) (mockCount : Nat) : List BatchItem :=
  (List.range mockCount).map fun k => playlistChild (ids k) parent platform dt (k + 1)

/-- `newQueue.splice(index, 1, ...newItems)` at `findIndex(q => q.id === itemId)`:
    replace the first item with the given id by the new items, in place. -/
def spliceAt (itemId : String) (newItems : List BatchItem) :
    List BatchItem → List BatchItem
  | [] => []
  | q :: rest =>
    if q.id = itemId then newItems ++ rest
    else q :: spliceAt itemId newItems rest

/-- `expandPlaylist` (lines 155-193).  The `mockCount = Math.floor(Math.random()
    * 5) + 3` draw and the child UUIDs are parameters. -/
def expandPlaylist (itemId platform : String) (ids : Nat → String)
    (mockCount : Nat) (dt : MediaType) (queue : List BatchItem) : List BatchItem :=
  match queue.find? (fun i => decide (i.id = itemId)) with
  | none => queue
  | some item => spliceAt itemId (mkPlaylistItems ids item platform dt mockCount) queue

/-! ## The downloader state and the timer-driven steps -/

/-- The component state relevant to the claims: the queue, the history, and the
    live intervals of `intervalsRef` — an interval is recorded as its item id
    together with the closure's floating `progress` accumulator, and disappears
    from this list exactly when `clearInterval` deactivates it. -/
structure DlState where
  queue : List BatchItem
  history : List HistoryItem
  timers : List (String × ℚ)
deriving DecidableEq, Repr

/-- `intervalsRef.current[itemId] = interval` after the guarded
    `clearInterval`: any previous live interval for the id dies. -/
def setTimer (id : String) (p : ℚ) (timers : List (String × ℚ)) :
    List (String × ℚ) :=
  (id, p) :: timers.filter (fun t => decide (t.1 ≠ id))

/-- `startDownload` (lines 199-249) up to the point where the interval is
    registered: the ineligibility guard, the history side effect, the
    `downloading` reset and the fresh timer with accumulator `0`.  The ticks of
    the interval are separate `progressTick` steps. -/
def startDownload (itemId histId : String) (now : Int) (st : DlState) : DlState :=
  match st.queue.find? (fun q => decide (q.id = itemId)) with
  | none => st
  | some item =>
    if item.status = Status.ready then
      { queue := updateItem itemId
          (fun it => { it with status := Status.downloading, progress := 0 }) st.queue
        history :=
          match item.result with
          | some r =>
            if strContains item.url "&index=" then st.history
            else addToHistory r item.url histId now st.history
          | none => st.history
        timers := setTimer itemId 0 st.timers }
    else st

/-- The phase label chosen from the freshly incremented accumulator
    (lines 220-225). -/
def tickPhase (p : ℚ) (isAudio : Bool) : String :=
  if p < 20 then "Conectando..."
  else if p < 50 then
    if isAudio then "Extrayendo audio HQ..." else "Descargando video..."
  else if p < 80 then
    if isAudio then "Convirtiendo a MP3..." else "Procesando MP4..."
  else if p < 99 then "Etiquetando..."
  else "¡Listo!"

/-- One firing of the `setInterval` callback of `startDownload`
    (lines 216-246) for the interval `(itemId, p)`: the random increment
    `Math.random() * 5 + 1` and the displayed speed draw are parameters.  At
    `progress >= 100` the interval clears itself and the item completes at
    exactly 100; otherwise the item stores `Math.min(100, Math.round(progress))`
    and the accumulator advances. -/
def progressTick (itemId : String) (inc : ℚ) (speedVal : String) (isAudio : Bool)
    (p : ℚ) (st : DlState) : DlState :=
  if 100 ≤ p + inc then
    { st with
      timers := st.timers.filter (fun t => decide (t.1 ≠ itemId))
      queue := updateItem itemId
        (fun it => { it with status := Status.completed, progress := 100,
                             phase := "Guardado", timeLeft := "0s" }) st.queue }
  else
    { st with
      timers := setTimer itemId (p + inc) st.timers
      queue := updateItem itemId
        (fun it => { it with progress := min 100 (round (p + inc)),
                             phase := tickPhase (p + inc) isAudio,
                             speed := speedVal ++ " MB/s" }) st.queue }

/-- `removeItem` (lines 260-263): the guarded `clearInterval` kills the item's
    live interval, then the item is filtered out of the queue. -/
def removeItem (id : String) (st : DlState) : DlState :=
  { st with
    timers := st.timers.filter (fun t => decide (t.1 ≠ id))
    queue := st.queue.filter (fun i => decide (i.id ≠ id)) }

/-- The VIDEO/AUDIO toggle buttons (lines 306-334): retype every `ready` item. -/
def setReadyType (dt : MediaType) (queue : List BatchItem) : List BatchItem :=
  queue.map fun i =>
    if i.status = Status.ready then { i with type := dt } else i

/-! ## The step relation

Each constructor is one event the component can process.  The guards record
what the corresponding source of nondeterminism guarantees:
* `crypto.randomUUID()` never repeats a value, so the UUID stream of a step is
  injective on the indices it uses and avoids every id already in the queue;
* `Math.floor(Math.random() * 5) + 3 ∈ [3, 7]`;
* `Math.random() * 5 + 1 ∈ [1, 6)`;
* a tick only fires on a live interval `(itemId, p)`.
-/

inductive Step : DlState → DlState → Prop
  | analyzeBatch (st : DlState) (text : String) (dt : MediaType) (ids : Nat → String)
      (hinj : ∀ i, i < (dedupFirst (extractUrls text.toList)).length →
        ∀ j, j < (dedupFirst (extractUrls text.toList)).length →
          ids i = ids j → i = j)
      (hfresh : ∀ k, k < (dedupFirst (extractUrls text.toList)).length →
        ∀ i ∈ st.queue, ids k ≠ i.id) :
      Step st { st with queue := handleAnalyzeBatch text dt ids st.queue }
  | analysisDone (st : DlState) (id : String) (outcome : Option AnalysisResult) :
      Step st { st with queue := applyAnalysis id outcome st.queue }
  | expand (st : DlState) (itemId platform : String) (ids : Nat → String)
      (mockCount : Nat) (dt : MediaType)
      (hcount : 3 ≤ mockCount ∧ mockCount ≤ 7)
      (hinj : ∀ i, i < mockCount → ∀ j, j < mockCount → ids i = ids j → i = j)
      (hfresh : ∀ k, k < mockCount → ∀ i ∈ st.queue, ids k ≠ i.id) :
      Step st { st with queue := expandPlaylist itemId platform ids mockCount dt st.queue }
  | startDl (st : DlState) (itemId histId : String) (now : Int) :
      Step st (startDownload itemId histId now st)
  | tick (st : DlState) (itemId : String) (p inc : ℚ) (speedVal : String)
      (isAudio : Bool) (hmem : (itemId, p) ∈ st.timers)
      (hlo : 1 ≤ inc) (hhi : inc < 6) :
      Step st (progressTick itemId inc speedVal isAudio p st)
  | removeIt (st : DlState) (id : String) :
      Step st (removeItem id st)
  | setType (st : DlState) (dt : MediaType) :
      Step st { st with queue := setReadyType dt st.queue }
  | clearHist (st : DlState) :
      Step st { st with history := [] }

/-- The states the downloader component can be in, starting from the empty
    mount state `useState([])` / `useState([])` / `useRef({})`. -/
inductive Reachable : DlState → Prop
  | init : Reachable { queue := [], history := [], timers := [] }
  | step {st st' : DlState} : Reachable st → Step st st' → Reachable st'

/-- The inductive invariant of the downloader state. -/
structure Inv (st : DlState) : Prop where
  idsNodup : (st.queue.map BatchItem.id).Nodup
  item : ∀ i ∈ st.queue,
    i.status ≠ Status.idle ∧
    0 ≤ i.progress ∧ i.progress ≤ 100 ∧
    (i.status = Status.completed → i.progress = 100) ∧
    (i.status = Status.completed → ∀ t ∈ st.timers, t.1 ≠ i.id)
  timer : ∀ t ∈ st.timers, (0 : ℚ) ≤ t.2
  histNodup : (st.history.map HistoryItem.url).Nodup
  histLen : st.history.length ≤ 5

/-! ## Helper lemmas -/

lemma mem_dedupFirstAux {a : String} :
    ∀ (seen l : List String), a ∈ dedupFirstAux seen l ↔ a ∈ l ∧ a ∉ seen := by
  intro seen l
  induction l generalizing seen with
  | nil => simp [dedupFirstAux]
  | cons x xs ih =>
    by_cases hx : x ∈ seen
    · simp only [dedupFirstAux, if_pos hx, ih]
      constructor
      · rintro ⟨h1, h2⟩
        exact ⟨List.mem_cons_of_mem _ h1, h2⟩
      · rintro ⟨h1, h2⟩
        rcases List.mem_cons.mp h1 with rfl | h1
        · exact absurd hx h2
        · exact ⟨h1, h2⟩
    · rw [dedupFirstAux, if_neg hx]
      constructor
      · intro h
        rcases List.mem_cons.mp h with rfl | h
        · exact ⟨List.mem_cons_self _ _, hx⟩
        · obtain ⟨h1, h2⟩ := (ih _).mp h
          exact ⟨List.mem_cons_of_mem _ h1,
            fun hs => h2 (List.mem_cons_of_mem _ hs)⟩
      · rintro ⟨h1, h2⟩
        by_cases hax : a = x
        · exact hax ▸ List.mem_cons_self _ _
        · have h1' : a ∈ xs := by
            rcases List.mem_cons.mp h1 with rfl | h1
            · exact absurd rfl hax
            · exact h1
          refine List.mem_cons_of_mem _ ((ih _).mpr ⟨h1', fun hs => ?_⟩)
          rcases List.mem_cons.mp hs with h | hs
          · exact hax h
          · exact h2 hs

lemma nodup_dedupFirstAux : ∀ (seen l : List String), (dedupFirstAux seen l).Nodup := by
  intro seen l
  induction l generalizing seen with
  | nil => simp [dedupFirstAux]
  | cons x xs ih =>
    by_cases hx : x ∈ seen
    · simpa [dedupFirstAux, if_pos hx] using ih seen
    · simp only [dedupFirstAux, if_neg hx, List.nodup_cons]
      refine ⟨fun hmem => ?_, ih (x :: seen)⟩
      exact ((mem_dedupFirstAux _ _).mp hmem).2 (List.mem_cons_self _ _)

lemma mem_dedupFirst {a : String} {l : List String} :
    a ∈ dedupFirst l ↔ a ∈ l := by
  simp [dedupFirst, mem_dedupFirstAux]

lemma nodup_dedupFirst (l : List String) : (dedupFirst l).Nodup :=
  nodup_dedupFirstAux [] l

lemma mkBatchItems_map_url (ids : Nat → String) (dt : MediaType) :
    ∀ (n : Nat) (urls : List String),
      (mkBatchItems ids dt n urls).map BatchItem.url = urls := by
  intro n urls
  induction urls generalizing n with
  | nil => rfl
  | cons u us ih => simp [mkBatchItems, mkAnalyzingItem, ih]

lemma mem_mkBatchItems {j : BatchItem} {ids : Nat → String} {dt : MediaType} :
    ∀ {n : Nat} {urls : List String}, j ∈ mkBatchItems ids dt n urls →
      j.status = Status.analyzing ∧ j.progress = 0 ∧ j.result = none ∧
      ∃ k, k < urls.length ∧ j.id = ids (n + k) ∧ j.url ∈ urls := by
  intro n urls
  induction urls generalizing n with
  | nil => intro h; simp [mkBatchItems] at h
  | cons u us ih =>
    intro h
    rcases List.mem_cons.mp h with rfl | h
    · exact ⟨rfl, rfl, rfl, 0, by simp, by simp [mkAnalyzingItem], by simp [mkAnalyzingItem]⟩
    · obtain ⟨h1, h2, h3, k, hk, hid, hurl⟩ := ih h
      exact ⟨h1, h2, h3, k + 1, by simpa using hk,
        by simpa [Nat.add_assoc, Nat.add_comm 1 k] using hid, List.mem_cons_of_mem _ hurl⟩

lemma mkBatchItems_map_id (ids : Nat → String) (dt : MediaType) :
    ∀ (n : Nat) (urls : List String),
      (mkBatchItems ids dt n urls).map BatchItem.id =
        (List.range urls.length).map fun k => ids (n + k) := by
  intro n urls
  induction urls generalizing n with
  | nil => rfl
  | cons u us ih =>
    simp only [mkBatchItems, List.map_cons, List.length_cons, List.range_succ_eq_map,
      List.map_map, ih (n + 1)]
    refine congrArg₂ _ (by simp [mkAnalyzingItem]) (List.map_congr_left fun k _ => ?_)
    simp [Function.comp, Nat.add_assoc, Nat.add_comm 1 k]

lemma updateItem_map_id {id : String} {f : BatchItem → BatchItem}
    (hf : ∀ i, (f i).id = i.id) (q : List BatchItem) :
    (updateItem id f q).map BatchItem.id = q.map BatchItem.id := by
  simp only [updateItem, List.map_map]
  refine List.map_congr_left fun i _ => ?_
  by_cases h : i.id = id <;> simp [Function.comp, h, hf]

lemma mem_updateItem {j : BatchItem} {id : String} {f : BatchItem → BatchItem}
    {q : List BatchItem} (h : j ∈ updateItem id f q) :
    (∃ i, i ∈ q ∧ i.id = id ∧ j = f i) ∨ (j ∈ q ∧ j.id ≠ id) := by
  simp only [updateItem, List.mem_map] at h
  obtain ⟨i, hi, hij⟩ := h
  by_cases hid : i.id = id
  · exact Or.inl ⟨i, hi, hid, by simp [hid] at hij; exact hij.symm⟩
  · simp only [if_neg hid] at hij
    exact Or.inr ⟨hij ▸ hi, hij ▸ hid⟩

lemma updateItem_mem_eq {it : BatchItem} {id : String} {f : BatchItem → BatchItem}
    {q : List BatchItem} (h : it ∈ q) (hid : it.id = id) :
    f it ∈ updateItem id f q := by
  simpa only [updateItem, if_pos hid] using
    List.mem_map_of_mem (fun item => if item.id = id then f item else item) h

lemma updateItem_mem_ne {it : BatchItem} {id : String} {f : BatchItem → BatchItem}
    {q : List BatchItem} (h : it ∈ q) (hid : it.id ≠ id) :
    it ∈ updateItem id f q := by
  simpa only [updateItem, if_neg hid] using
    List.mem_map_of_mem (fun item => if item.id = id then f item else item) h

lemma addToHistory_length {resultData : AnalysisResult} {link newId : String}
    {now : Int} {history : List HistoryItem} (hlen : history.length ≤ 5) :
    (addToHistory resultData link newId now history).length ≤ 5 := by
  unfold addToHistory
  split
  · exact hlen
  · rw [List.length_take]
    exact min_le_left _ _

lemma addToHistory_nodup {resultData : AnalysisResult} {link newId : String}
    {now : Int} {history : List HistoryItem}
    (hnodup : (history.map HistoryItem.url).Nodup) :
    ((addToHistory resultData link newId now history).map HistoryItem.url).Nodup := by
  unfold addToHistory
  split
  · exact hnodup
  · refine List.Nodup.sublist (List.Sublist.map _ (List.take_sublist _ _)) ?_
    rw [List.map_cons, List.nodup_cons]
    constructor
    · intro hmem
      obtain ⟨x, hx, hxurl⟩ := List.mem_map.mp hmem
      have := List.of_mem_filter hx
      rw [decide_eq_true_eq] at this
      exact this hxurl
    · exact List.Nodup.sublist (List.Sublist.map _ (List.filter_sublist _)) hnodup

lemma find?_some_split {α : Type} {p : α → Bool} :
    ∀ {q : List α} {a : α}, q.find? p = some a →
      ∃ pre post, q = pre ++ a :: post ∧ (∀ x ∈ pre, p x = false) ∧ p a = true := by
  intro q
  induction q with
  | nil => intro a h; simp at h
  | cons x xs ih =>
    intro a h
    by_cases hx : p x = true
    · rw [List.find?_cons_of_pos _ hx] at h
      obtain rfl := Option.some.inj h
      exact ⟨[], xs, rfl, by simp, hx⟩
    · rw [List.find?_cons_of_neg _ (by simpa using hx)] at h
      obtain ⟨pre, post, rfl, hpre, hpa⟩ := ih h
      refine ⟨x :: pre, post, rfl, ?_, hpa⟩
      intro y hy
      rcases List.mem_cons.mp hy with rfl | hy
      · simpa using hx
      · exact hpre y hy

lemma find?_eq_of_split {α : Type} {p : α → Bool} :
    ∀ (pre : List α) (a : α) (post : List α), (∀ x ∈ pre, p x = false) → p a = true →
      (pre ++ a :: post).find? p = some a := by
  intro pre
  induction pre with
  | nil =>
    intro a post _ hpa
    simpa using List.find?_cons_of_pos _ hpa
  | cons x xs ih =>
    intro a post hpre hpa
    rw [List.cons_append,
      List.find?_cons_of_neg _ (by simp [hpre x (List.mem_cons_self _ _)])]
    exact ih a post (fun y hy => hpre y (List.mem_cons_of_mem _ hy)) hpa

lemma find?_eq_none_of_all {α : Type} {p : α → Bool} {q : List α}
    (h : ∀ x ∈ q, p x = false) : q.find? p = none := by
  rw [List.find?_eq_none]
  intro x hx hpx
  rw [h x hx] at hpx
  cases hpx

lemma spliceAt_of_not_mem {itemId : String} {newItems : List BatchItem} :
    ∀ {q : List BatchItem}, (∀ x ∈ q, x.id ≠ itemId) →
      spliceAt itemId newItems q = q := by
  intro q
  induction q with
  | nil => intro _; rfl
  | cons x xs ih =>
    intro h
    rw [spliceAt, if_neg (h x (List.mem_cons_self _ _)),
      ih fun y hy => h y (List.mem_cons_of_mem _ hy)]

lemma spliceAt_split {itemId : String} {newItems : List BatchItem} :
    ∀ (pre : List BatchItem) (item : BatchItem) (post : List BatchItem),
      (∀ x ∈ pre, x.id ≠ itemId) → item.id = itemId →
      spliceAt itemId newItems (pre ++ item :: post) = pre ++ newItems ++ post := by
  intro pre
  induction pre with
  | nil => intro item post _ hid; simp [spliceAt, hid]
  | cons x xs ih =>
    intro item post hpre hid
    rw [List.cons_append, spliceAt, if_neg (hpre x (List.mem_cons_self _ _)),
      ih item post (fun y hy => hpre y (List.mem_cons_of_mem _ hy)) hid]
    simp

lemma mem_mkPlaylistItems {j : BatchItem} {ids : Nat → String} {parent : BatchItem}
    {platform : String} {dt : MediaType} {mockCount : Nat}
    (h : j ∈ mkPlaylistItems ids parent platform dt mockCount) :
    j.status = Status.ready ∧ j.progress = 0 ∧
    (∃ k, 1 ≤ k ∧ k ≤ mockCount ∧ j.url = parent.url ++ "&index=" ++ toString k) ∧
    (∃ r, j.result = some r ∧ r.isPlaylist = some false) ∧
    ∃ k, k < mockCount ∧ j.id = ids k := by
  simp only [mkPlaylistItems, List.mem_map, List.mem_range] at h
  obtain ⟨k, hk, rfl⟩ := h
  exact ⟨rfl, rfl, ⟨k + 1, by omega, by omega, rfl⟩, ⟨_, rfl, rfl⟩, k, hk, rfl⟩

lemma mkPlaylistItems_map_id (ids : Nat → String) (parent : BatchItem)
    (platform : String) (dt : MediaType) (mockCount : Nat) :
    (mkPlaylistItems ids parent platform dt mockCount).map BatchItem.id =
      (List.range mockCount).map ids := by
  simp only [mkPlaylistItems, List.map_map]
  exact List.map_congr_left fun k _ => rfl

/-! ## Preservation of the invariant by each step -/

lemma idsNodup_updateItem {st : DlState} (inv : Inv st) (id : String)
    (f : BatchItem → BatchItem) (hf : ∀ i, (f i).id = i.id) :
    ((updateItem id f st.queue).map BatchItem.id).Nodup := by
  rw [updateItem_map_id hf]
  exact inv.idsNodup

lemma inv_updateItem_status {st : DlState} (inv : Inv st) (id : String)
    (f : BatchItem → BatchItem)
    (hid : ∀ i, (f i).id = i.id)
    (hprog : ∀ i, (f i).progress = i.progress)
    (hstat : ∀ i, (f i).status = Status.ready ∨ (f i).status = Status.error) :
    Inv { st with queue := updateItem id f st.queue } := by
  refine ⟨?_, ?_, inv.timer, inv.histNodup, inv.histLen⟩
  · simpa only [updateItem_map_id hid] using inv.idsNodup
  · intro i hi
    rcases mem_updateItem hi with ⟨j, hj, _, rfl⟩ | ⟨hiq, _⟩
    · obtain ⟨_, h2, h3, _, _⟩ := inv.item j hj
      refine ⟨?_, by rw [hprog]; exact h2, by rw [hprog]; exact h3, ?_, ?_⟩
      · rcases hstat j with hs | hs <;> rw [hs] <;> intro hc <;> cases hc
      · intro hc; rcases hstat j with hs | hs <;> rw [hs] at hc <;> cases hc
      · intro hc; rcases hstat j with hs | hs <;> rw [hs] at hc <;> cases hc
    · exact inv.item i hiq

lemma inv_applyAnalysis {st : DlState} (inv : Inv st) (id : String)
    (outcome : Option AnalysisResult) :
    Inv { st with queue := applyAnalysis id outcome st.queue } := by
  cases outcome with
  | some data =>
    by_cases hv : data.isValid = true
    · rw [show applyAnalysis id (some data) st.queue = updateItem id
          (fun it => { it with status := Status.ready, result := some data })
          st.queue from by rw [applyAnalysis, if_pos hv]]
      exact inv_updateItem_status inv id _ (fun i => rfl) (fun i => rfl)
        (fun i => Or.inl rfl)
    · rw [show applyAnalysis id (some data) st.queue = updateItem id
          (fun it => { it with status := Status.error,
                               errorMsg := some "Plataforma no soportada",
                               result := some data })
          st.queue from by rw [applyAnalysis, if_neg hv]]
      exact inv_updateItem_status inv id _ (fun i => rfl) (fun i => rfl)
        (fun i => Or.inr rfl)
  | none =>
    exact inv_updateItem_status inv id _ (fun i => rfl) (fun i => rfl)
      (fun i => Or.inr rfl)

lemma inv_analyzeBatch {st : DlState} (inv : Inv st) (text : String)
    (dt : MediaType) (ids : Nat → String)
    (hinj : ∀ i, i < (dedupFirst (extractUrls text.toList)).length →
      ∀ j, j < (dedupFirst (extractUrls text.toList)).length → ids i = ids j → i = j)
    (hfresh : ∀ k, k < (dedupFirst (extractUrls text.toList)).length →
      ∀ i ∈ st.queue, ids k ≠ i.id) :
    Inv { st with queue := handleAnalyzeBatch text dt ids st.queue } := by
  unfold handleAnalyzeBatch
  split
  · exact inv
  · split
    · exact inv
    · refine ⟨?_, ?_, inv.timer, inv.histNodup, inv.histLen⟩
      · rw [List.map_append, List.nodup_append]
        refine ⟨?_, inv.idsNodup, ?_⟩
        · refine List.Nodup.sublist
            (List.Sublist.map _ (List.filter_sublist _)) ?_
          rw [mkBatchItems_map_id]
          refine List.Nodup.map_on ?_ (List.nodup_range _)
          intro i hi j hj hij
          simp only [List.mem_range] at hi hj
          simpa using hinj i hi j hj (by simpa using hij)
        · intro a ha hb
          obtain ⟨x, hx, rfl⟩ := List.mem_map.mp ha
          obtain ⟨_, _, _, k, hk, hxid, _⟩ :=
            mem_mkBatchItems (List.mem_of_mem_filter hx)
          obtain ⟨y, hy, hyid⟩ := List.mem_map.mp hb
          exact hfresh k hk y hy (by rw [hyid, hxid, Nat.zero_add])
      · intro i hi
        rcases List.mem_append.mp hi with hi | hi
        · obtain ⟨h1, h2, _, _⟩ := mem_mkBatchItems (List.mem_of_mem_filter hi)
          refine ⟨?_, ?_, ?_, ?_, ?_⟩
          · rw [h1]; intro hc; cases hc
          · rw [h2]
          · rw [h2]; norm_num
          · rw [h1]; intro hc; cases hc
          · rw [h1]; intro hc; cases hc
        · exact inv.item i hi

lemma inv_setReadyType {st : DlState} (inv : Inv st) (dt : MediaType) :
    Inv { st with queue := setReadyType dt st.queue } := by
  refine ⟨?_, ?_, inv.timer, inv.histNodup, inv.histLen⟩
  · simp only [setReadyType, List.map_map]
    have : ((fun i : BatchItem => BatchItem.id i) ∘ fun i =>
        if i.status = Status.ready then { i with type := dt } else i) =
        fun i : BatchItem => i.id := by
      funext i
      by_cases h : i.status = Status.ready <;> simp [Function.comp, h]
    rw [this]
    exact inv.idsNodup
  · intro i hi
    simp only [setReadyType, List.mem_map] at hi
    obtain ⟨j, hj, rfl⟩ := hi
    by_cases h : j.status = Status.ready
    · simpa [h] using inv.item j hj
    · simpa [h] using inv.item j hj

lemma inv_removeItem {st : DlState} (inv : Inv st) (id : String) :
    Inv (removeItem id st) := by
  refine ⟨?_, ?_, ?_, inv.histNodup, inv.histLen⟩
  · exact List.Nodup.sublist
      (List.Sublist.map _ (List.filter_sublist _)) inv.idsNodup
  · intro i hi
    obtain ⟨h1, h2, h3, h4, h5⟩ := inv.item i (List.mem_of_mem_filter hi)
    exact ⟨h1, h2, h3, h4, fun hc t ht => h5 hc t (List.mem_of_mem_filter ht)⟩
  · intro t ht
    exact inv.timer t (List.mem_of_mem_filter ht)

lemma inv_expand {st : DlState} (inv : Inv st) (itemId platform : String)
    (ids : Nat → String) (mockCount : Nat) (dt : MediaType)
    (hinj : ∀ i, i < mockCount → ∀ j, j < mockCount → ids i = ids j → i = j)
    (hfresh : ∀ k, k < mockCount → ∀ i ∈ st.queue, ids k ≠ i.id) :
    Inv { st with queue := expandPlaylist itemId platform ids mockCount dt st.queue } := by
  cases hfind : st.queue.find? (fun i => decide (i.id = itemId)) with
  | none =>
    have heq : expandPlaylist itemId platform ids mockCount dt st.queue = st.queue := by
      rw [expandPlaylist, hfind]
    rw [heq]
    exact inv
  | some item =>
    have heq : expandPlaylist itemId platform ids mockCount dt st.queue =
        spliceAt itemId (mkPlaylistItems ids item platform dt mockCount) st.queue := by
      rw [expandPlaylist, hfind]
    obtain ⟨pre, post, hq, hpre, hpa⟩ := find?_some_split hfind
    have hitem : item.id = itemId := by simpa using hpa
    have hpre' : ∀ x ∈ pre, x.id ≠ itemId := by
      intro x hx
      have := hpre x hx
      simpa using this
    rw [heq, hq, spliceAt_split pre item post hpre' hitem]
    have hkidsId : ∀ a ∈ (mkPlaylistItems ids item platform dt mockCount).map BatchItem.id,
        ∃ k, k < mockCount ∧ a = ids k := by
      intro a ha
      rw [mkPlaylistItems_map_id] at ha
      obtain ⟨k, hk, rfl⟩ := List.mem_map.mp ha
      exact ⟨k, List.mem_range.mp hk, rfl⟩
    refine ⟨?_, ?_, inv.timer, inv.histNodup, inv.histLen⟩
    · have hnd := inv.idsNodup
      rw [hq, List.map_append, List.map_cons, List.nodup_append] at hnd
      obtain ⟨hpreN, hconsN, hdisj⟩ := hnd
      rw [List.nodup_cons] at hconsN
      obtain ⟨_, hpostN⟩ := hconsN
      rw [List.map_append, List.map_append, List.append_assoc, List.nodup_append]
      refine ⟨hpreN, ?_, ?_⟩
      · rw [List.nodup_append]
        refine ⟨?_, hpostN, ?_⟩
        · rw [mkPlaylistItems_map_id]
          refine List.Nodup.map_on ?_ (List.nodup_range _)
          intro i hi j hj hij
          exact hinj i (List.mem_range.mp hi) j (List.mem_range.mp hj) hij
        · intro a hak hap
          obtain ⟨k, hk, rfl⟩ := hkidsId a hak
          obtain ⟨y, hy, hyid⟩ := List.mem_map.mp hap
          refine hfresh k hk y ?_ hyid.symm
          rw [hq]
          exact List.mem_append_right _ (List.mem_cons_of_mem _ hy)
      · intro a hap hakp
        obtain ⟨x, hx, rfl⟩ := List.mem_map.mp hap
        rcases List.mem_append.mp hakp with hak | hapost
        · obtain ⟨k, hk, hkid⟩ := hkidsId _ hak
          refine hfresh k hk x ?_ hkid.symm
          rw [hq]
          exact List.mem_append_left _ hx
        · exact hdisj (List.mem_map_of_mem _ hx) (List.mem_cons_of_mem _ hapost)
    · intro i hi
      rcases List.mem_append.mp hi with hi' | hipost
      · rcases List.mem_append.mp hi' with hipre | hikids
        · refine inv.item i ?_
          rw [hq]
          exact List.mem_append_left _ hipre
        · obtain ⟨h1, h2, _, _⟩ := mem_mkPlaylistItems hikids
          refine ⟨?_, ?_, ?_, ?_, ?_⟩
          · rw [h1]; intro hc; cases hc
          · rw [h2]
          · rw [h2]; norm_num
          · rw [h1]; intro hc; cases hc
          · rw [h1]; intro hc; cases hc
      · refine inv.item i ?_
        rw [hq]
        exact List.mem_append_right _ (List.mem_cons_of_mem _ hipost)

lemma startHistory_nodup {st : DlState} (inv : Inv st) (item : BatchItem)
    (histId : String) (now : Int) :
    ((match item.result with
      | some r =>
        if strContains item.url "&index=" then st.history
        else addToHistory r item.url histId now st.history
      | none => st.history).map HistoryItem.url).Nodup := by
  cases item.result with
  | none => exact inv.histNodup
  | some r =>
    by_cases hidx : strContains item.url "&index=" = true
    · simpa [hidx] using inv.histNodup
    · simpa [hidx] using addToHistory_nodup inv.histNodup

lemma startHistory_len {st : DlState} (inv : Inv st) (item : BatchItem)
    (histId : String) (now : Int) :
    (match item.result with
      | some r =>
        if strContains item.url "&index=" then st.history
        else addToHistory r item.url histId now st.history
      | none => st.history).length ≤ 5 := by
  cases item.result with
  | none => exact inv.histLen
  | some r =>
    by_cases hidx : strContains item.url "&index=" = true
    · simpa [hidx] using inv.histLen
    · simpa [hidx] using addToHistory_length inv.histLen

lemma inv_startDownload {st : DlState} (inv : Inv st) (itemId histId : String)
    (now : Int) :
    Inv (startDownload itemId histId now st) := by
  cases hfind : st.queue.find? (fun q => decide (q.id = itemId)) with
  | none =>
    have heq : startDownload itemId histId now st = st := by
      rw [startDownload, hfind]
    rw [heq]
    exact inv
  | some item =>
    by_cases hst : item.status = Status.ready
    · have heq : startDownload itemId histId now st =
          { queue := updateItem itemId
              (fun it => { it with status := Status.downloading, progress := 0 }) st.queue
            history :=
              match item.result with
              | some r =>
                if strContains item.url "&index=" then st.history
                else addToHistory r item.url histId now st.history
              | none => st.history
            timers := setTimer itemId 0 st.timers } := by
        rw [startDownload, hfind]
        exact if_pos hst
      rw [heq]
      refine ⟨?_, ?_, ?_, startHistory_nodup inv item histId now,
        startHistory_len inv item histId now⟩
      · exact idsNodup_updateItem inv itemId _ fun i => rfl
      · intro i hi
        rcases mem_updateItem hi with ⟨j, hj, hjid, rfl⟩ | ⟨hiq, hine⟩
        · refine ⟨?_, ?_, ?_, ?_, ?_⟩
          · intro hc; cases hc
          · exact le_refl _
          · norm_num
          · intro hc; cases hc
          · intro hc; cases hc
        · obtain ⟨h1, h2, h3, h4, h5⟩ := inv.item i hiq
          refine ⟨h1, h2, h3, h4, ?_⟩
          intro hc t ht
          rcases List.mem_cons.mp ht with rfl | ht
          · exact fun he => hine he.symm
          · exact h5 hc t (List.mem_of_mem_filter ht)
      · intro t ht
        rcases List.mem_cons.mp ht with rfl | ht
        · norm_num
        · exact inv.timer t (List.mem_of_mem_filter ht)
    · have heq : startDownload itemId histId now st = st := by
        rw [startDownload, hfind]
        exact if_neg hst
      rw [heq]
      exact inv

lemma inv_tick {st : DlState} (inv : Inv st) (itemId : String) (p inc : ℚ)
    (speedVal : String) (isAudio : Bool)
    (hmem : (itemId, p) ∈ st.timers) (hlo : 1 ≤ inc) :
    Inv (progressTick itemId inc speedVal isAudio p st) := by
  have hp : (0 : ℚ) ≤ p := inv.timer _ hmem
  have hnc : ∀ i ∈ st.queue, i.id = itemId → i.status ≠ Status.completed := by
    intro i hi hid hc
    exact (inv.item i hi).2.2.2.2 hc _ hmem hid.symm
  unfold progressTick
  by_cases h100 : (100 : ℚ) ≤ p + inc
  · rw [if_pos h100]
    refine ⟨?_, ?_, ?_, inv.histNodup, inv.histLen⟩
    · exact idsNodup_updateItem inv itemId _ fun i => rfl
    · intro i hi
      rcases mem_updateItem hi with ⟨j, hj, hjid, rfl⟩ | ⟨hiq, hine⟩
      · refine ⟨?_, ?_, ?_, ?_, ?_⟩
        · intro hc; cases hc
        · norm_num
        · norm_num
        · intro _; rfl
        · intro _ t ht
          have := List.of_mem_filter ht
          rw [decide_eq_true_eq] at this
          simpa [hjid] using this
      · obtain ⟨h1, h2, h3, h4, h5⟩ := inv.item i hiq
        exact ⟨h1, h2, h3, h4, fun hc t ht => h5 hc t (List.mem_of_mem_filter ht)⟩
    · intro t ht
      exact inv.timer t (List.mem_of_mem_filter ht)
  · rw [if_neg h100]
    have hr0 : (0 : Int) ≤ round (p + inc) := by
      rw [round_eq]
      refine Int.floor_nonneg.mpr ?_
      linarith
    refine ⟨?_, ?_, ?_, inv.histNodup, inv.histLen⟩
    · exact idsNodup_updateItem inv itemId _ fun i => rfl
    · intro i hi
      rcases mem_updateItem hi with ⟨j, hj, hjid, rfl⟩ | ⟨hiq, hine⟩
      · obtain ⟨h1, _, _, _, _⟩ := inv.item j hj
        have hjnc : j.status ≠ Status.completed := hnc j hj hjid
        refine ⟨h1, ?_, ?_, ?_, ?_⟩
        · exact le_min (by norm_num) hr0
        · exact min_le_left _ _
        · intro hc; exact absurd hc hjnc
        · intro hc; exact absurd hc hjnc
      · obtain ⟨h1, h2, h3, h4, h5⟩ := inv.item i hiq
        refine ⟨h1, h2, h3, h4, ?_⟩
        intro hc t ht
        rcases List.mem_cons.mp ht with rfl | ht
        · exact fun he => hine he.symm
        · exact h5 hc t (List.mem_of_mem_filter ht)
    · intro t ht
      rcases List.mem_cons.mp ht with rfl | ht
      · show (0 : ℚ) ≤ p + inc
        linarith
      · exact inv.timer t (List.mem_of_mem_filter ht)

lemma inv_clearHist {st : DlState} (inv : Inv st) :
    Inv { st with history := [] } :=
  ⟨inv.idsNodup, inv.item, inv.timer, List.nodup_nil, by simp⟩

lemma step_inv {st st' : DlState} (inv : Inv st) (h : Step st st') : Inv st' := by
  cases h with
  | analyzeBatch text dt ids hinj hfresh =>
    exact inv_analyzeBatch inv text dt ids hinj hfresh
  | analysisDone id outcome => exact inv_applyAnalysis inv id outcome
  | expand itemId platform ids mockCount dt hcount hinj hfresh =>
    exact inv_expand inv itemId platform ids mockCount dt hinj hfresh
  | startDl itemId histId now => exact inv_startDownload inv itemId histId now
  | tick itemId p inc speedVal isAudio hmem hlo hhi =>
    exact inv_tick inv itemId p inc speedVal isAudio hmem hlo
  | removeIt id => exact inv_removeItem inv id
  | setType dt => exact inv_setReadyType inv dt
  | clearHist => exact inv_clearHist inv

lemma inv_init : Inv { queue := [], history := [], timers := [] } := by
  refine ⟨List.nodup_nil, ?_, ?_, List.nodup_nil, by simp⟩
  · intro i hi
    cases hi
  · intro t ht
    cases ht

/-- Every reachable state of the downloader satisfies the invariant. -/
lemma reachable_inv {st : DlState} (h : Reachable st) : Inv st := by
  induction h with
  | init => exact inv_init
  | step _ hstep ih => exact step_inv ih hstep

/-! ## Claim theorems -/

/-- Claim C1: for every history whose urls are pairwise distinct (the invariant
    the component maintains, see `reachable_inv`) and every valid analysis
    result, `addToHistory` yields a list of length at most five, with at most
    one entry per url, whose head is the freshly built entry. -/
theorem addToHistory_cap_unique_head (history : List HistoryItem)
    (resultData : AnalysisResult) (link newId : String) (now : Int)
    (hvalid : resultData.isValid = true)
    (hnodup : (history.map HistoryItem.url).Nodup) :
    (addToHistory resultData link newId now history).length ≤ 5 ∧
    ((addToHistory resultData link newId now history).map HistoryItem.url).Nodup ∧
    (addToHistory resultData link newId now history).head? =
      some { id := newId, url := link, platform := resultData.platform,
             timestamp := now, summary := resultData.summary } := by
  refine ⟨?_, addToHistory_nodup hnodup, ?_⟩
  · unfold addToHistory
    rw [if_neg (by rw [hvalid]; simp)]
    rw [List.length_take]
    exact min_le_left _ _
  · unfold addToHistory
    rw [if_neg (by rw [hvalid]; simp)]
    rw [show (5 : ℕ) = 4 + 1 from rfl, List.take_succ_cons]
    rfl

/-- Claim C1, instantiated: a concrete valid result pushed onto the empty
    history. -/
theorem addToHistory_cap_unique_head_inst :
    (addToHistory
        { platform := "YouTube", isValid := true, summary := "s",
          contentType := ContentType.video }
        "http://x" "i1" 7 []).length ≤ 5 ∧
    ((addToHistory
        { platform := "YouTube", isValid := true, summary := "s",
          contentType := ContentType.video }
        "http://x" "i1" 7 []).map HistoryItem.url).Nodup ∧
    (addToHistory
        { platform := "YouTube", isValid := true, summary := "s",
          contentType := ContentType.video }
        "http://x" "i1" 7 []).head? =
      some { id := "i1", url := "http://x", platform := "YouTube",
             timestamp := 7, summary := "s" } :=
  addToHistory_cap_unique_head []
    { platform := "YouTube", isValid := true, summary := "s",
      contentType := ContentType.video }
    "http://x" "i1" 7 rfl List.nodup_nil

/-- Claim C2: `handleAnalyzeBatch` adds a block of new items in front of the
    queue in which every url occurs at most once, every url comes from the
    extracted urls of the input, and no added url equals the url of an item
    already in the queue. -/
theorem handleAnalyzeBatch_dedup (text : String) (dt : MediaType)
    (ids : Nat → String) (queue : List BatchItem) :
    ∃ added, handleAnalyzeBatch text dt ids queue = added ++ queue ∧
      (added.map BatchItem.url).Nodup ∧
      (∀ it ∈ added, it.url ∈ extractUrls text.toList) ∧
      (∀ it ∈ added, it.url ∉ queue.map BatchItem.url) := by
  unfold handleAnalyzeBatch
  split
  · exact ⟨[], rfl, List.nodup_nil, by simp, by simp⟩
  · split
    · exact ⟨[], rfl, List.nodup_nil, by simp, by simp⟩
    · refine ⟨_, rfl, ?_, ?_, ?_⟩
      · refine List.Nodup.sublist (List.Sublist.map _ (List.filter_sublist _)) ?_
        rw [mkBatchItems_map_url]
        exact nodup_dedupFirst _
      · intro it hit
        obtain ⟨_, _, _, _, _, _, hurl⟩ :=
          mem_mkBatchItems (List.mem_of_mem_filter hit)
        exact mem_dedupFirst.mp hurl
      · intro it hit
        have := List.of_mem_filter hit
        rwa [decide_eq_true_eq] at this

/-- Claim C2, instantiated: pasting the same url twice. -/
theorem handleAnalyzeBatch_dedup_inst :
    ∃ added,
      handleAnalyzeBatch "http://a http://a" MediaType.video
          (fun k => toString k) [] = added ++ [] ∧
      (added.map BatchItem.url).Nodup ∧
      (∀ it ∈ added, it.url ∈ extractUrls "http://a http://a".toList) ∧
      ∀ it ∈ added, it.url ∉ ([] : List BatchItem).map BatchItem.url :=
  handleAnalyzeBatch_dedup "http://a http://a" MediaType.video
    (fun k => toString k) []

/-- Claim C3: every reachable batch item has one of exactly five statuses —
    `analyzing`, `ready`, `downloading`, `completed` or `error` (the sixth
    declared value, `idle`, is never assigned). -/
theorem reachable_status_five {st : DlState} (h : Reachable st) :
    ∀ i ∈ st.queue,
      i.status = Status.analyzing ∨ i.status = Status.ready ∨
      i.status = Status.downloading ∨ i.status = Status.completed ∨
      i.status = Status.error := by
  intro i hi
  have h1 := ((reachable_inv h).item i hi).1
  cases hst : i.status with
  | idle => exact absurd hst h1
  | analyzing => exact Or.inl rfl
  | ready => exact Or.inr (Or.inl rfl)
  | downloading => exact Or.inr (Or.inr (Or.inl rfl))
  | completed => exact Or.inr (Or.inr (Or.inr (Or.inl rfl)))
  | error => exact Or.inr (Or.inr (Or.inr (Or.inr rfl)))

/-- Claim C3, instantiated on the item of the state reached by analyzing one
    pasted url. -/
theorem reachable_status_five_inst :
    (mkAnalyzingItem "0" "http://a" MediaType.video).status = Status.analyzing ∨
    (mkAnalyzingItem "0" "http://a" MediaType.video).status = Status.ready ∨
    (mkAnalyzingItem "0" "http://a" MediaType.video).status = Status.downloading ∨
    (mkAnalyzingItem "0" "http://a" MediaType.video).status = Status.completed ∨
    (mkAnalyzingItem "0" "http://a" MediaType.video).status = Status.error := by
  have hr : Reachable
      { queue := handleAnalyzeBatch "http://a" MediaType.video
          (fun k => toString k) []
        history := [], timers := [] } :=
    Reachable.step Reachable.init
      (Step.analyzeBatch _ "http://a" MediaType.video (fun k => toString k)
        (by decide) (by decide))
  exact reachable_status_five hr (mkAnalyzingItem "0" "http://a" MediaType.video)
    (by decide)

/-- Claim C4: when the AI call fails or returns no text, `analyzeLink` returns
    (it never throws — it is total) the generic invalid-link result with
    `isValid = false`, platform `"Desconocida"` and contentType `unknown`, and
    the downloader then marks any queue item carrying the analysis id as
    `error` with message `"Plataforma no soportada"`. -/
theorem analyzeLink_error_fallback (parse : String → Option AnalysisResult)
    (outcome : ApiOutcome)
    (hfail : outcome = ApiOutcome.failure ∨ outcome = ApiOutcome.success none ∨
      outcome = ApiOutcome.success (some ""))
    (queue : List BatchItem) (id : String) :
    (analyzeLink outcome parse).isValid = false ∧
    (analyzeLink outcome parse).platform = "Desconocida" ∧
    (analyzeLink outcome parse).contentType = ContentType.unknown ∧
    ∀ it ∈ queue, it.id = id →
      { it with status := Status.error,
                errorMsg := some "Plataforma no soportada",
                result := some (analyzeLink outcome parse) } ∈
        applyAnalysis id (some (analyzeLink outcome parse)) queue := by
  have hres : analyzeLink outcome parse = fallbackResult := by
    rcases hfail with rfl | rfl | rfl <;> rfl
  rw [hres]
  refine ⟨rfl, rfl, rfl, ?_⟩
  intro it hit hid
  show _ ∈ applyAnalysis id (some fallbackResult) queue
  have heq : applyAnalysis id (some fallbackResult) queue =
      updateItem id
        (fun it => { it with status := Status.error,
                             errorMsg := some "Plataforma no soportada",
                             result := some fallbackResult }) queue := by
    rw [applyAnalysis]
    exact if_neg (by simp [fallbackResult])
  rw [heq]
  exact updateItem_mem_eq hit hid

/-- Claim C4, instantiated: a rejected API call on a one-item queue. -/
theorem analyzeLink_error_fallback_inst :
    (analyzeLink ApiOutcome.failure fun _ => none).isValid = false ∧
    (analyzeLink ApiOutcome.failure fun _ => none).platform = "Desconocida" ∧
    (analyzeLink ApiOutcome.failure fun _ => none).contentType =
      ContentType.unknown ∧
    ∀ it ∈ [mkAnalyzingItem "a" "http://x" MediaType.video], it.id = "a" →
      { it with status := Status.error,
                errorMsg := some "Plataforma no soportada",
                result := some (analyzeLink ApiOutcome.failure fun _ => none) } ∈
        applyAnalysis "a" (some (analyzeLink ApiOutcome.failure fun _ => none))
          [mkAnalyzingItem "a" "http://x" MediaType.video] :=
  analyzeLink_error_fallback (fun _ => none) ApiOutcome.failure (Or.inl rfl)
    [mkAnalyzingItem "a" "http://x" MediaType.video] "a"

/-- Claim C5: every error (or falsy throw) caught by the generator's handler is
    mapped to one of exactly seven user-facing Spanish messages, and each of
    the seven is attained: the not-found key message, invalid argument,
    permission denied, quota exceeded, service unavailable, safety block, and
    the generic fallback. -/
theorem generateErrorMessage_seven :
    (∀ err : Option JsError,
      generateErrorMessage err = errNotFound ∨
      generateErrorMessage err = errInvalidArgument ∨
      generateErrorMessage err = errPermissionDenied ∨
      generateErrorMessage err = errQuota ∨
      generateErrorMessage err = errUnavailable ∨
      generateErrorMessage err = errSafety ∨
      generateErrorMessage err = errGeneric) ∧
    (∃ e, generateErrorMessage e = errNotFound) ∧
    (∃ e, generateErrorMessage e = errInvalidArgument) ∧
    (∃ e, generateErrorMessage e = errPermissionDenied) ∧
    (∃ e, generateErrorMessage e = errQuota) ∧
    (∃ e, generateErrorMessage e = errUnavailable) ∧
    (∃ e, generateErrorMessage e = errSafety) ∧
    (∃ e, generateErrorMessage e = errGeneric) := by
  refine ⟨?_, ⟨some ⟨none, some 404, none⟩, by decide⟩,
    ⟨some ⟨none, some 400, none⟩, by decide⟩,
    ⟨some ⟨none, some 403, none⟩, by decide⟩,
    ⟨some ⟨none, some 429, none⟩, by decide⟩,
    ⟨some ⟨none, some 503, none⟩, by decide⟩,
    ⟨some ⟨some "SAFETY", none, none⟩, by decide⟩,
    ⟨none, rfl⟩⟩
  intro err
  cases err with
  | none => exact Or.inr (Or.inr (Or.inr (Or.inr (Or.inr (Or.inr rfl)))))
  | some e =>
    simp only [generateErrorMessage]
    split_ifs <;> simp

/-- Claim C6: expanding a playlist replaces the (unique) item with the given id
    by the generated sub-items in place — every sub-item is `ready` with
    progress `0`, a url derived from the parent url and `isPlaylist = false` —
    and the rest of the queue keeps its order; a missing id leaves the queue
    unchanged. -/
theorem expandPlaylist_replaces_in_place (itemId platform : String)
    (ids : Nat → String) (mockCount : Nat) (dt : MediaType)
    (queue : List BatchItem) :
    (∀ pre item post, queue = pre ++ item :: post → item.id = itemId →
      (∀ x ∈ pre, x.id ≠ itemId) →
      expandPlaylist itemId platform ids mockCount dt queue =
        pre ++ mkPlaylistItems ids item platform dt mockCount ++ post ∧
      ∀ j ∈ mkPlaylistItems ids item platform dt mockCount,
        j.status = Status.ready ∧ j.progress = 0 ∧
        (∃ k, 1 ≤ k ∧ k ≤ mockCount ∧
          j.url = item.url ++ "&index=" ++ toString k) ∧
        ∃ r, j.result = some r ∧ r.isPlaylist = some false) ∧
    ((∀ x ∈ queue, x.id ≠ itemId) →
      expandPlaylist itemId platform ids mockCount dt queue = queue) := by
  constructor
  · rintro pre item post rfl hid hpre
    have hfind : (pre ++ item :: post).find? (fun i => decide (i.id = itemId)) =
        some item :=
      find?_eq_of_split pre item post
        (fun x hx => by simpa using hpre x hx) (by simpa using hid)
    have heq : expandPlaylist itemId platform ids mockCount dt
        (pre ++ item :: post) =
        spliceAt itemId (mkPlaylistItems ids item platform dt mockCount)
          (pre ++ item :: post) := by
      rw [expandPlaylist, hfind]
    refine ⟨by rw [heq, spliceAt_split pre item post hpre hid], ?_⟩
    intro j hj
    obtain ⟨h1, h2, h3, h4, _⟩ := mem_mkPlaylistItems hj
    exact ⟨h1, h2, h3, h4⟩
  · intro hnone
    have hfind : queue.find? (fun i => decide (i.id = itemId)) = none :=
      find?_eq_none_of_all fun x hx => by simpa using hnone x hx
    rw [expandPlaylist, hfind]

/-- Claim C6, instantiated: a one-item queue whose single item is expanded. -/
theorem expandPlaylist_replaces_in_place_inst :
    expandPlaylist "a" "YouTube" (fun k => "c" ++ toString k) 3 MediaType.video
        [mkAnalyzingItem "a" "http://pl" MediaType.video] =
      [] ++ mkPlaylistItems (fun k => "c" ++ toString k)
        (mkAnalyzingItem "a" "http://pl" MediaType.video) "YouTube"
        MediaType.video 3 ++ [] :=
  ((expandPlaylist_replaces_in_place "a" "YouTube" (fun k => "c" ++ toString k)
      3 MediaType.video [mkAnalyzingItem "a" "http://pl" MediaType.video]).1
    [] (mkAnalyzingItem "a" "http://pl" MediaType.video) [] rfl rfl
    (by simp)).1

/-- Claim C7: `removeItem` kills any live interval registered for the id,
    removes exactly the item with that id from the queue, and leaves every
    other queue item (in order) and every other id's timer unchanged. -/
theorem removeItem_clears_timer (id : String) (st : DlState)
    (pre : List BatchItem) (item : BatchItem) (post : List BatchItem)
    (hq : st.queue = pre ++ item :: post) (hid : item.id = id)
    (hothers : ∀ x ∈ pre ++ post, x.id ≠ id) :
    (removeItem id st).queue = pre ++ post ∧
    (∀ t, t ∈ (removeItem id st).timers ↔ t ∈ st.timers ∧ t.1 ≠ id) ∧
    (removeItem id st).history = st.history := by
  refine ⟨?_, ?_, rfl⟩
  · show st.queue.filter (fun i => decide (i.id ≠ id)) = pre ++ post
    rw [hq, List.filter_append, List.filter_cons,
      if_neg (by simp [hid]),
      List.filter_eq_self.mpr
        (fun a ha => by simpa using hothers a (List.mem_append_left _ ha)),
      List.filter_eq_self.mpr
        (fun a ha => by simpa using hothers a (List.mem_append_right _ ha))]
  · intro t
    show t ∈ st.timers.filter (fun t => decide (t.1 ≠ id)) ↔ _
    rw [List.mem_filter, decide_eq_true_eq]

/-- Claim C7, instantiated: removing the only item of a queue with one live
    interval for it and one for another id. -/
theorem removeItem_clears_timer_inst :
    (removeItem "a"
      { queue := [mkAnalyzingItem "a" "http://x" MediaType.video]
        history := [], timers := [("a", 3), ("b", 5)] }).queue = [] ++ [] ∧
    (∀ t, t ∈ (removeItem "a"
      { queue := [mkAnalyzingItem "a" "http://x" MediaType.video]
        history := [], timers := [("a", 3), ("b", 5)] }).timers ↔
        t ∈ [(("a" : String), (3 : ℚ)), ("b", 5)] ∧ t.1 ≠ "a") ∧
    (removeItem "a"
      { queue := [mkAnalyzingItem "a" "http://x" MediaType.video]
        history := [], timers := [("a", 3), ("b", 5)] }).history = [] :=
  removeItem_clears_timer "a"
    { queue := [mkAnalyzingItem "a" "http://x" MediaType.video]
      history := [], timers := [("a", 3), ("b", 5)] }
    [] (mkAnalyzingItem "a" "http://x" MediaType.video) [] rfl rfl (by simp)

/-- Claim C8: in every reachable queue state no two batch items share an id
    (the freshness and injectivity of `crypto.randomUUID()` draws are the
    guards of the adding steps). -/
theorem reachable_ids_nodup {st : DlState} (h : Reachable st) :
    (st.queue.map BatchItem.id).Nodup :=
  (reachable_inv h).idsNodup

/-- Claim C8, instantiated on the state reached by analyzing two pasted urls. -/
theorem reachable_ids_nodup_inst :
    ((handleAnalyzeBatch "http://a http://b" MediaType.video
        (fun k => toString k) []).map BatchItem.id).Nodup := by
  have hr : Reachable
      { queue := handleAnalyzeBatch "http://a http://b" MediaType.video
          (fun k => toString k) []
        history := [], timers := [] } :=
    Reachable.step Reachable.init
      (Step.analyzeBatch _ "http://a http://b" MediaType.video
        (fun k => toString k) (by decide) (by decide))
  exact reachable_ids_nodup hr

/-- Claim C9: in every reachable state every batch item's progress lies within
    0 and 100 inclusive and a `completed` item has progress exactly 100;
    moreover both item constructors create items with progress 0. -/
theorem reachable_progress_bounds {st : DlState} (h : Reachable st) :
    (∀ i ∈ st.queue, 0 ≤ i.progress ∧ i.progress ≤ 100 ∧
      (i.status = Status.completed → i.progress = 100)) ∧
    (∀ id url dt, (mkAnalyzingItem id url dt).progress = 0) ∧
    (∀ id parent platform dt k,
      (playlistChild id parent platform dt k).progress = 0) := by
  refine ⟨?_, fun _ _ _ => rfl, fun _ _ _ _ _ => rfl⟩
  intro i hi
  obtain ⟨_, h2, h3, h4, _⟩ := (reachable_inv h).item i hi
  exact ⟨h2, h3, h4⟩

/-- Claim C9, instantiated on the state reached by analyzing one pasted url. -/
theorem reachable_progress_bounds_inst :
    (∀ i ∈ handleAnalyzeBatch "http://c" MediaType.audio
        (fun k => toString k) [],
      0 ≤ i.progress ∧ i.progress ≤ 100 ∧
      (i.status = Status.completed → i.progress = 100)) ∧
    (∀ id url dt, (mkAnalyzingItem id url dt).progress = 0) ∧
    (∀ id parent platform dt k,
      (playlistChild id parent platform dt k).progress = 0) := by
  have hr : Reachable
      { queue := handleAnalyzeBatch "http://c" MediaType.audio
          (fun k => toString k) []
        history := [], timers := [] } :=
    Reachable.step Reachable.init
      (Step.analyzeBatch _ "http://c" MediaType.audio (fun k => toString k)
        (by decide) (by decide))
  exact reachable_progress_bounds hr

/-- Claim C10: `startDownload` is a no-op when no queue item carries the id or
    when the item with the id is not `ready` — the queue, the history and the
    timer map are all unchanged and no interval is started. -/
theorem startDownload_noop_ineligible (itemId histId : String) (now : Int)
    (st : DlState)
    (h : ∀ i ∈ st.queue, i.id = itemId → i.status ≠ Status.ready) :
    startDownload itemId histId now st = st := by
  cases hfind : st.queue.find? (fun q => decide (q.id = itemId)) with
  | none => rw [startDownload, hfind]
  | some item =>
    have hmem := List.mem_of_find?_eq_some hfind
    have hpid : item.id = itemId := by simpa using List.find?_some hfind
    rw [startDownload, hfind]
    exact if_neg (h item hmem hpid)

/-- Claim C10, instantiated: a queue whose only item with the id is already
    completed, together with a live timer and a history entry. -/
theorem startDownload_noop_ineligible_inst :
    startDownload "a" "h1" 9
      { queue := [{ mkAnalyzingItem "a" "http://x" MediaType.video with
                    status := Status.completed }]
        history := [{ id := "i", url := "u", platform := "P", timestamp := 0,
                      summary := "s" }]
        timers := [("b", 2)] } =
      { queue := [{ mkAnalyzingItem "a" "http://x" MediaType.video with
                    status := Status.completed }]
        history := [{ id := "i", url := "u", platform := "P", timestamp := 0,
                      summary := "s" }]
        timers := [("b", 2)] } :=
  startDownload_noop_ineligible "a" "h1" 9
    { queue := [{ mkAnalyzingItem "a" "http://x" MediaType.video with
                  status := Status.completed }]
      history := [{ id := "i", url := "u", platform := "P", timestamp := 0,
                    summary := "s" }]
      timers := [("b", 2)] }
    (by decide)

end VortexMedia
